import Mathlib

/-!
Verification of the AI-Toolbox MDP Experience accumulator and its numeric
utility routines (`Utils/Core.hpp`, `MDP/Experience.hpp`).

Doubles are modelled as exact rationals (`ℚ`); IEEE machine epsilon for
`double` is `2⁻⁵²`.  Division by zero in IEEE arithmetic yields an infinity
(or NaN), whose comparison against epsilon is false; where the source may
divide by zero we model that branch explicitly.  The dense tables of the
`Experience` class are modelled as total functions over `Nat` indices; the
loops of the source become bounded recursions or pointwise updates over the
in-range region.
-/

namespace AIToolbox

/-- A 3-dimensional table, indexed as `t s a s1`. -/
abbrev Table3 (α : Type) := Nat → Nat → Nat → α

/-- A 2-dimensional table, indexed as `t s a`. -/
abbrev Table2 (α : Type) := Nat → Nat → α

/-- Sum of `f 0 + f 1 + ... + f (n-1)`, accumulated in loop order, as by a
C++ `for` loop with `+=`. -/
def loopSum {α : Type} [Zero α] [Add α] (n : Nat) (f : Nat → α) : α :=
  match n with
  | 0 => 0
  | Nat.succ m => loopSum m f + f m

/-- `copyTable3D` from `Utils/Core.hpp`: copies `in[i][j][x]` into
`out[i][j][x]` for all `i < d1`, `j < d2`, `x < d3`; cells of `out` outside
that region are untouched. -/
def copyTable3D {α : Type} (tin : Table3 α) (tout : Table3 α)
    (d1 d2 d3 : Nat) : Table3 α :=
  fun i j x => if i < d1 ∧ j < d2 ∧ x < d3 then tin i j x else tout i j x

/-- `std::numeric_limits<double>::epsilon()`: the machine epsilon of an IEEE
binary64 double, `2⁻⁵²`. -/
def eps : ℚ := 1 / 2 ^ 52

/-- `checkEqualSmall` from `Utils/Core.hpp`:
`std::fabs(a - b) <= 5 * epsilon`. -/
def checkEqualSmall (a b : ℚ) : Bool :=
  decide (|a - b| ≤ 5 * eps)

/-- `checkDifferentSmall` from `Utils/Core.hpp`: negation of
`checkEqualSmall`. -/
def checkDifferentSmall (a b : ℚ) : Bool :=
  !checkEqualSmall a b

/-- `checkEqualGeneral` from `Utils/Core.hpp`: true if `checkEqualSmall`
passes, otherwise `fabs(a-b) / min(fabs(a), fabs(b)) < epsilon`.  When the
denominator is zero the IEEE quotient is an infinity (the numerator is
nonzero there, as `checkEqualSmall` failed), and comparing it against
epsilon yields false; that branch is modelled explicitly. -/
def checkEqualGeneral (a b : ℚ) : Bool :=
  if checkEqualSmall a b then true
  else if min |a| |b| = 0 then false
  else decide (|a - b| / min |a| |b| < eps)

/-- `checkDifferentGeneral` from `Utils/Core.hpp`: negation of
`checkEqualGeneral`. -/
def checkDifferentGeneral (a b : ℚ) : Bool :=
  !checkEqualGeneral a b

/-- `veccmp` from `Utils/Core.hpp`: scans index by index; returns `1` at the
first index where `lhs > rhs`, `-1` at the first index where `lhs < rhs`,
and `0` when the scan ends with no differing index.  The source requires
both vectors to have the same size. -/
def veccmp {α : Type} [LinearOrder α] : List α → List α → Int
  | x :: xs, y :: ys =>
      if x > y then 1
      else if x < y then -1
      else veccmp xs ys
  | _, _ => 0

/-- `sequential_sorted_contains` from `Utils/Core.hpp`: linear scan; skips
elements `< elem`, returns true on an element `== elem`, returns false on
the first element that is neither, or when the sequence is exhausted. -/
def sequential_sorted_contains {α : Type} [LinearOrder α] :
    List α → α → Bool
  | [], _ => false
  | e :: v, elem =>
      if e < elem then sequential_sorted_contains v elem
      else decide (e = elem)

/-- The `Experience` table state: dimensions `S`, `A` and the four tables
`visits`, `visitsSum`, `rewards`, `rewardsSum` of `MDP/Experience.hpp`. -/
structure Experience where
  S : Nat
  A : Nat
  visits : Table3 Nat
  visitsSum : Table2 Nat
  rewards : Table3 ℚ
  rewardsSum : Table2 ℚ

/-- Modelled from the spec: the `Experience(s, a)` constructor is declared in
`Experience.hpp` but defined in `Experience.cpp`, which is not part of the
sources; per the spec all four tables are allocated to shape `S×A×S` / `S×A`
and zero-initialized. -/
def Experience.init (s a : Nat) : Experience :=
  { S := s
    A := a
    visits := fun _ _ _ => 0
    visitsSum := fun _ _ => 0
    rewards := fun _ _ _ => 0
    rewardsSum := fun _ _ => 0 }

/-- Modelled from the spec: `Experience::record` is declared in
`Experience.hpp` but defined in `Experience.cpp`, which is not part of the
sources; per the spec it increments `visits[s][a][s1]` by 1, `visitsSum[s][a]`
by 1, and adds `rew` to `rewards[s][a][s1]` and to `rewardsSum[s][a]`. -/
def Experience.record (e : Experience) (s a s1 : Nat) (rew : ℚ) :
    Experience :=
  { e with
    visits := fun s' a' s1' =>
      if s' = s ∧ a' = a ∧ s1' = s1 then e.visits s' a' s1' + 1
      else e.visits s' a' s1'
    visitsSum := fun s' a' =>
      if s' = s ∧ a' = a then e.visitsSum s' a' + 1
      else e.visitsSum s' a'
    rewards := fun s' a' s1' =>
      if s' = s ∧ a' = a ∧ s1' = s1 then e.rewards s' a' s1' + rew
      else e.rewards s' a' s1'
    rewardsSum := fun s' a' =>
      if s' = s ∧ a' = a then e.rewardsSum s' a' + rew
      else e.rewardsSum s' a' }

/-- Modelled from the spec: `Experience::reset` is declared in
`Experience.hpp` but defined in `Experience.cpp`, which is not part of the
sources; per the spec it sets every cell of all four tables to zero. -/
def Experience.reset (e : Experience) : Experience :=
  { e with
    visits := fun _ _ _ => 0
    visitsSum := fun _ _ => 0
    rewards := fun _ _ _ => 0
    rewardsSum := fun _ _ => 0 }

/-- `Experience::setVisits` from `Experience.hpp` (lines 179-187): copies the
external container into `visits_` via `copyTable3D`, then for every in-range
`(s, a)` runs `visitsSum_[s][a] += visits_[s][a][s1]` over `s1 < S`.  Note
the source does NOT zero `visitsSum_` first: the inner loop accumulates onto
whatever value the marginal already held. -/
def Experience.setVisits (e : Experience) (v : Table3 Nat) : Experience :=
  let visits' := copyTable3D v e.visits e.S e.A e.S
  { e with
    visits := visits'
    visitsSum := fun s a =>
      if s < e.S ∧ a < e.A then
        e.visitsSum s a + loopSum e.S (fun s1 => visits' s a s1)
      else e.visitsSum s a }

/-- `Experience::setRewards` from `Experience.hpp` (lines 189-197): copies
the external container into `rewards_` via `copyTable3D`, then for every
in-range `(s, a)` runs `rewardsSum_[s][a] += rewards_[s][a][s1]` over
`s1 < S`.  As with `setVisits`, the marginal is not zeroed first. -/
def Experience.setRewards (e : Experience) (r : Table3 ℚ) : Experience :=
  let rewards' := copyTable3D r e.rewards e.S e.A e.S
  { e with
    rewards := rewards'
    rewardsSum := fun s a =>
      if s < e.S ∧ a < e.A then
        e.rewardsSum s a + loopSum e.S (fun s1 => rewards' s a s1)
      else e.rewardsSum s a }

/-! ## Helper lemmas -/

/-- Scan characterisation of `sequential_sorted_contains`: it returns true
exactly when the list splits as `l₁ ++ elem :: l₂` with every element of
`l₁` at most `elem`. -/
theorem ssc_eq_true_iff {α : Type} [LinearOrder α] (v : List α) (elem : α) :
    sequential_sorted_contains v elem = true ↔
      ∃ l₁ l₂, v = l₁ ++ elem :: l₂ ∧ ∀ x ∈ l₁, x ≤ elem := by
  induction v with
  | nil => simp [sequential_sorted_contains]
  | cons e v ih =>
    by_cases he : e < elem
    · rw [sequential_sorted_contains, if_pos he, ih]
      constructor
      · rintro ⟨l₁, l₂, rfl, hall⟩
        refine ⟨e :: l₁, l₂, rfl, ?_⟩
        intro x hx
        rcases List.mem_cons.mp hx with h | h
        · exact h ▸ le_of_lt he
        · exact hall x h
      · rintro ⟨l₁, l₂, heq, hall⟩
        cases l₁ with
        | nil =>
          simp only [List.nil_append, List.cons.injEq] at heq
          exact absurd heq.1 (ne_of_lt he)
        | cons c l₁ =>
          simp only [List.cons_append, List.cons.injEq] at heq
          exact ⟨l₁, l₂, heq.2, fun x hx => hall x (List.mem_cons_of_mem c hx)⟩
    · rw [sequential_sorted_contains, if_neg he]
      by_cases heq : e = elem
      · subst heq
        simp only [decide_eq_true_eq, true_iff, eq_self_iff_true]
        exact ⟨[], v, rfl, by simp⟩
      · have helem : elem < e := lt_of_le_of_ne (le_of_not_lt he) (Ne.symm heq)
        constructor
        · intro h
          exact absurd (of_decide_eq_true h) heq
        · rintro ⟨l₁, l₂, hsplit, hall⟩
          cases l₁ with
          | nil =>
            simp only [List.nil_append, List.cons.injEq] at hsplit
            exact absurd hsplit.1 heq
          | cons c l₁ =>
            simp only [List.cons_append, List.cons.injEq] at hsplit
            have hce : e ≤ elem := hsplit.1 ▸ hall c (List.mem_cons_self c l₁)
            exact absurd hce (not_le.mpr helem)

/-- If `elem` does not occur in `l₁` and the two decompositions around an
occurrence of `elem` agree, then `l₁` is contained in the other left part. -/
theorem before_first_occ_subset {α : Type} (elem : α) :
    ∀ (l₁ m₁ t₁ t₂ : List α),
      l₁ ++ elem :: t₁ = m₁ ++ elem :: t₂ → elem ∉ l₁ → l₁ ⊆ m₁ := by
  intro l₁
  induction l₁ with
  | nil => intro m₁ _ _ _ _; exact List.nil_subset m₁
  | cons c l ih =>
    intro m₁ t₁ t₂ heq hnot
    cases m₁ with
    | nil =>
      simp only [List.cons_append, List.nil_append, List.cons.injEq] at heq
      have : elem ∈ c :: l := by
        rw [← heq.1]; exact List.mem_cons_self c l
      exact absurd this hnot
    | cons d m =>
      simp only [List.cons_append, List.cons.injEq] at heq
      intro y hy
      rcases List.mem_cons.mp hy with rfl | hmem
      · rw [heq.1]; exact List.mem_cons_self d m
      · exact List.mem_cons_of_mem d
          (ih m t₁ t₂ heq.2 (fun hm => hnot (List.mem_cons_of_mem c hm)) hmem)

/-- The scan result does not depend on anything after an element that is not
below the target. -/
theorem ssc_suffix_independent {α : Type} [LinearOrder α] (l₁ : List α)
    (x : α) (l₂ l₂' : List α) (elem : α) (hx : ¬ x < elem) :
    sequential_sorted_contains (l₁ ++ x :: l₂) elem =
      sequential_sorted_contains (l₁ ++ x :: l₂') elem := by
  induction l₁ with
  | nil => simp [sequential_sorted_contains, hx]
  | cons c l ih =>
    by_cases hc : c < elem
    · simpa [sequential_sorted_contains, hc] using ih
    · simp [sequential_sorted_contains, hc]

/-- If an element greater than the target precedes the target's first
occurrence, the scan returns false. -/
theorem ssc_false_of_greater_before {α : Type} [LinearOrder α]
    (l₁ l₂ : List α) (elem x : α) (hx : x ∈ l₁) (hlt : elem < x)
    (hnot : elem ∉ l₁) :
    sequential_sorted_contains (l₁ ++ elem :: l₂) elem = false := by
  by_contra h
  rw [Bool.not_eq_false] at h
  rcases (ssc_eq_true_iff _ _).mp h with ⟨m₁, m₂, heq, hall⟩
  have hsub : l₁ ⊆ m₁ := before_first_occ_subset elem l₁ m₁ l₂ m₂ heq hnot
  exact absurd hlt (not_lt.mpr (hall x (hsub hx)))

/-- `veccmp` is antisymmetric in the list model. -/
theorem veccmp_antisymm {α : Type} [LinearOrder α] :
    ∀ (a b : List α), veccmp a b = -veccmp b a := by
  intro a
  induction a with
  | nil => intro b; cases b <;> simp [veccmp]
  | cons x xs ih =>
    intro b
    cases b with
    | nil => simp [veccmp]
    | cons y ys =>
      rcases lt_trichotomy x y with h | h | h
      · simp [veccmp, h, lt_asymm h]
      · subst h
        simpa [veccmp, lt_irrefl] using ih ys
      · simp [veccmp, h, lt_asymm h]

/-- `veccmp` of a list with itself is zero. -/
theorem veccmp_self {α : Type} [LinearOrder α] :
    ∀ v : List α, veccmp v v = 0 := by
  intro v
  induction v with
  | nil => rfl
  | cons x xs ih => simpa [veccmp, lt_irrefl] using ih

/-! ## Claims -/

/-- C7: `checkEqualGeneral` is symmetric: for every pair of doubles `a` and
`b`, `checkEqualGeneral a b = checkEqualGeneral b a`. -/
theorem checkEqualGeneral_symmetric :
    ∀ a b : ℚ, checkEqualGeneral a b = checkEqualGeneral b a := by
  intro a b
  unfold checkEqualGeneral checkEqualSmall
  rw [abs_sub_comm a b, min_comm]

/-- C9: `checkEqualGeneral` is total at a zero argument: for `a = 0` and any
`b` with `|b| > 5·ε`, the relative-difference denominator `min |a| |b|` is
zero, yet the function returns false (the IEEE quotient is infinite and the
comparison with epsilon fails) rather than faulting. -/
theorem checkEqualGeneral_zero_total (b : ℚ) (h : 5 * eps < |b|) :
    checkEqualGeneral 0 b = false := by
  unfold checkEqualGeneral checkEqualSmall
  have h1 : ¬ (|(0:ℚ) - b| ≤ 5 * eps) := by
    rw [zero_sub, abs_neg]; exact not_le.mpr h
  have h2 : min |(0:ℚ)| |b| = 0 := by
    rw [abs_zero]; exact min_eq_left (abs_nonneg b)
  simpa [h1, h2] using h

theorem checkEqualGeneral_zero_total_witness :
    5 * eps < |(1:ℚ)| ∧ checkEqualGeneral 0 1 = false :=
  ⟨by norm_num [eps], checkEqualGeneral_zero_total 1 (by norm_num [eps])⟩

/-- C8: `setVisits` leaves `rewards`, `rewardsSum`, `S` and `A` unchanged,
and `setRewards` leaves `visits`, `visitsSum`, `S` and `A` unchanged. -/
theorem setters_frame :
    ∀ (e : Experience) (v : Table3 Nat) (r : Table3 ℚ),
      ((e.setVisits v).rewards = e.rewards ∧
       (e.setVisits v).rewardsSum = e.rewardsSum ∧
       (e.setVisits v).S = e.S ∧ (e.setVisits v).A = e.A) ∧
      ((e.setRewards r).visits = e.visits ∧
       (e.setRewards r).visitsSum = e.visitsSum ∧
       (e.setRewards r).S = e.S ∧ (e.setRewards r).A = e.A) :=
  fun _ _ _ => ⟨⟨rfl, rfl, rfl, rfl⟩, ⟨rfl, rfl, rfl, rfl⟩⟩

/-- C1 (counter-evaluation): `setVisits` does not recompute the marginal
from scratch.  On an `S = A = 1` table, calling `setVisits` with the constant
table `5` twice leaves `visitsSum[0][0] = 10`, while the sum over the copied
visits row is `5`: the marginal depends on its previous contents. -/
theorem setVisits_marginal_accumulates :
    ((Experience.init 1 1).setVisits (fun _ _ _ => 5) |>.setVisits
        (fun _ _ _ => 5)).visitsSum 0 0 = 10 ∧
    loopSum 1 (fun s1 =>
      ((Experience.init 1 1).setVisits (fun _ _ _ => 5) |>.setVisits
          (fun _ _ _ => 5)).visits 0 0 s1) = 5 :=
  ⟨rfl, rfl⟩

/-- C2 (counter-evaluation): the marginal invariant is not maintained across
every valid operation sequence.  Starting from a fresh `S = A = 1` table,
the sequence `setRewards([[[3]]]); setRewards([[[3]]])` leaves
`rewardsSum[0][0] = 6` while the sum over the rewards row is `3`. -/
theorem invariant_broken_by_setRewards :
    ((Experience.init 1 1).setRewards (fun _ _ _ => 3) |>.setRewards
        (fun _ _ _ => 3)).rewardsSum 0 0 = 6 ∧
    loopSum 1 (fun s1 =>
      ((Experience.init 1 1).setRewards (fun _ _ _ => 3) |>.setRewards
          (fun _ _ _ => 3)).rewards 0 0 s1) = 3 := by
  constructor <;> norm_num [Experience.setRewards, Experience.init,
    copyTable3D, loopSum]

/-- C3 (counter-evaluation): `setVisits` with a container equal to the
current visits table is not idempotent.  On an `S = A = 1` table holding
`visits[0][0][0] = 1` and `visitsSum[0][0] = 1`, re-importing the constant
table `1` (equal to the current contents) leaves `visits` unchanged but
doubles the marginal to `2`. -/
theorem setVisits_not_idempotent :
    ((Experience.init 1 1).setVisits (fun _ _ _ => 1)).visits 0 0 0 = 1 ∧
    ((Experience.init 1 1).setVisits (fun _ _ _ => 1)).visitsSum 0 0 = 1 ∧
    (((Experience.init 1 1).setVisits (fun _ _ _ => 1)).setVisits
        (fun _ _ _ => 1)).visits 0 0 0 = 1 ∧
    (((Experience.init 1 1).setVisits (fun _ _ _ => 1)).setVisits
        (fun _ _ _ => 1)).visitsSum 0 0 = 2 :=
  ⟨rfl, rfl, rfl, rfl⟩

/-- C4: for in-range indices, `record s a s1 rew` increments
`visits[s][a][s1]` and `visitsSum[s][a]` by one, adds `rew` to
`rewards[s][a][s1]` and `rewardsSum[s][a]`, and leaves every other cell of
the four tables (and the dimensions) unchanged. -/
theorem record_updates_exactly (e : Experience) (s a s1 : Nat) (rew : ℚ)
    (hs : s < e.S) (ha : a < e.A) (hs1 : s1 < e.S) :
    (e.record s a s1 rew).visits s a s1 = e.visits s a s1 + 1 ∧
    (e.record s a s1 rew).visitsSum s a = e.visitsSum s a + 1 ∧
    (e.record s a s1 rew).rewards s a s1 = e.rewards s a s1 + rew ∧
    (e.record s a s1 rew).rewardsSum s a = e.rewardsSum s a + rew ∧
    (e.record s a s1 rew).S = e.S ∧ (e.record s a s1 rew).A = e.A ∧
    (∀ s' a' s1', ¬(s' = s ∧ a' = a ∧ s1' = s1) →
      (e.record s a s1 rew).visits s' a' s1' = e.visits s' a' s1' ∧
      (e.record s a s1 rew).rewards s' a' s1' = e.rewards s' a' s1') ∧
    (∀ s' a', ¬(s' = s ∧ a' = a) →
      (e.record s a s1 rew).visitsSum s' a' = e.visitsSum s' a' ∧
      (e.record s a s1 rew).rewardsSum s' a' = e.rewardsSum s' a') := by
  refine ⟨by simp [Experience.record], by simp [Experience.record],
    by simp [Experience.record], by simp [Experience.record], rfl, rfl,
    ?_, ?_⟩
  · intro s' a' s1' h
    exact ⟨by simp [Experience.record, if_neg h],
           by simp [Experience.record, if_neg h]⟩
  · intro s' a' h
    exact ⟨by simp [Experience.record, if_neg h],
           by simp [Experience.record, if_neg h]⟩

theorem record_updates_exactly_witness :
    (0:Nat) < 2 ∧ (0:Nat) < 1 ∧ (1:Nat) < 2 ∧
    ((Experience.init 2 1).record 0 0 1 1).visits 0 0 1 =
      (Experience.init 2 1).visits 0 0 1 + 1 ∧
    ((Experience.init 2 1).record 0 0 1 1).visitsSum 0 0 =
      (Experience.init 2 1).visitsSum 0 0 + 1 ∧
    ((Experience.init 2 1).record 0 0 1 1).rewards 0 0 1 =
      (Experience.init 2 1).rewards 0 0 1 + 1 ∧
    ((Experience.init 2 1).record 0 0 1 1).rewardsSum 0 0 =
      (Experience.init 2 1).rewardsSum 0 0 + 1 :=
  ⟨by decide, by decide, by decide,
   (record_updates_exactly (Experience.init 2 1) 0 0 1 1
      (by decide) (by decide) (by decide)).1,
   (record_updates_exactly (Experience.init 2 1) 0 0 1 1
      (by decide) (by decide) (by decide)).2.1,
   (record_updates_exactly (Experience.init 2 1) 0 0 1 1
      (by decide) (by decide) (by decide)).2.2.1,
   (record_updates_exactly (Experience.init 2 1) 0 0 1 1
      (by decide) (by decide) (by decide)).2.2.2.1⟩

/-- C5: on a sorted sequence, `sequential_sorted_contains v elem` is true
iff an element equal to `elem` occurs with no element greater than `elem`
before it; on `[1, 3, 5, 7]` it returns true for `5` and false for `4` and
`8`. -/
theorem sequential_sorted_contains_spec :
    (∀ {α : Type} [LinearOrder α] (v : List α) (elem : α),
       List.Sorted (· ≤ ·) v →
       (sequential_sorted_contains v elem = true ↔
         ∃ l₁ l₂, v = l₁ ++ elem :: l₂ ∧ ∀ x ∈ l₁, ¬ elem < x)) ∧
    sequential_sorted_contains ([1, 3, 5, 7] : List Int) 5 = true ∧
    sequential_sorted_contains ([1, 3, 5, 7] : List Int) 4 = false ∧
    sequential_sorted_contains ([1, 3, 5, 7] : List Int) 8 = false := by
  refine ⟨?_, by decide, by decide, by decide⟩
  intro α inst v elem _
  rw [ssc_eq_true_iff]
  constructor
  · rintro ⟨l₁, l₂, rfl, hall⟩
    exact ⟨l₁, l₂, rfl, fun x hx => not_lt.mpr (hall x hx)⟩
  · rintro ⟨l₁, l₂, rfl, hall⟩
    exact ⟨l₁, l₂, rfl, fun x hx => not_lt.mp (hall x hx)⟩

theorem sequential_sorted_contains_spec_witness :
    List.Sorted (· ≤ ·) ([1, 3, 5, 7] : List Int) ∧
    (sequential_sorted_contains ([1, 3, 5, 7] : List Int) 5 = true ↔
      ∃ l₁ l₂, ([1, 3, 5, 7] : List Int) = l₁ ++ 5 :: l₂ ∧
        ∀ x ∈ l₁, ¬ (5:Int) < x) :=
  ⟨by decide, sequential_sorted_contains_spec.1 [1, 3, 5, 7] 5 (by decide)⟩

/-- C6: for equal-length vectors, `veccmp a b = -veccmp b a`, and
`veccmp v v = 0` for every vector `v`. -/
theorem veccmp_props :
    (∀ {α : Type} [LinearOrder α] (a b : List α),
       a.length = b.length → veccmp a b = -veccmp b a) ∧
    (∀ {α : Type} [LinearOrder α] (v : List α), veccmp v v = 0) :=
  ⟨fun a b _ => veccmp_antisymm a b, fun v => veccmp_self v⟩

theorem veccmp_props_witness :
    ([1, 2] : List Int).length = ([3, 0] : List Int).length ∧
    veccmp ([1, 2] : List Int) [3, 0] = -veccmp ([3, 0] : List Int) [1, 2] :=
  ⟨rfl, veccmp_props.1 [1, 2] [3, 0] rfl⟩

/-- C10: the scan of `sequential_sorted_contains` never depends on elements
past the first element that is not below the target, and on an unsorted
sequence it returns false whenever some element greater than the target
precedes the target's first occurrence. -/
theorem ssc_scan_stops_early :
    (∀ {α : Type} [LinearOrder α] (l₁ : List α) (x : α) (l₂ l₂' : List α)
       (elem : α), ¬ x < elem →
       sequential_sorted_contains (l₁ ++ x :: l₂) elem =
         sequential_sorted_contains (l₁ ++ x :: l₂') elem) ∧
    (∀ {α : Type} [LinearOrder α] (l₁ l₂ : List α) (elem x : α),
       x ∈ l₁ → elem < x → elem ∉ l₁ →
       sequential_sorted_contains (l₁ ++ elem :: l₂) elem = false) :=
  ⟨fun l₁ x l₂ l₂' elem hx => ssc_suffix_independent l₁ x l₂ l₂' elem hx,
   fun l₁ l₂ elem x h1 h2 h3 => ssc_false_of_greater_before l₁ l₂ elem x h1 h2 h3⟩

theorem ssc_scan_stops_early_witness :
    (7 : Int) ∈ ([7] : List Int) ∧ (5 : Int) < 7 ∧
    (5 : Int) ∉ ([7] : List Int) ∧
    sequential_sorted_contains (([7] : List Int) ++ 5 :: []) 5 = false :=
  ⟨by decide, by decide, by decide,
   ssc_scan_stops_early.2 [7] [] 5 7 (by decide) (by decide) (by decide)⟩

end AIToolbox
